import Mathlib

/-!
Shallow embedding of `app.py` (CS Mastery Hub: YouTube lecture → study notes
→ PDF pipeline) and proofs about its observable behaviour.

The text normalizer `clean_text` applies three regex substitutions in order:
  1. `re.sub(r"\*\*(.*?)\*\*", r"\1", text)`   — drop bold markers, lazily;
  2. `re.sub(r"[^\x00-\x7F]+", "", text)`      — drop non-ASCII characters;
  3. `re.sub(r"\n{2,}", "\n", text)`           — squash newline runs.
Strings are modelled as `List Char` internally, with `String` wrappers that
keep the source's names.
-/

/-- Lazy search for a closing `**` on the current line, as the lazy group
`(.*?)` does: scanning left to right, close at the first `**`; a newline
(which `.` does not match) aborts the search.  On success, returns the group
(the characters before the closing `**`) and the remainder after it. -/
def findClose : List Char → Option (List Char × List Char)
  | [] => none
  | [_] => none
  | c :: d :: rest =>
    if c = '*' ∧ d = '*' then some ([], rest)
    else if c = '\n' then none
    else (findClose (d :: rest)).map fun p => (c :: p.1, p.2)

/-- First substitution of `clean_text`: `re.sub(r"\*\*(.*?)\*\*", r"\1", text)`.
The scanner attempts a match at each position; at `**` it looks for the
lazily-nearest closing `**` on the same line, replaces the whole match by the
group, and resumes after the match; otherwise it emits the character and
moves on.  (When no closing pair exists, re-attempting at the second `*`
also fails, so both stars are emitted.) -/
def unbold : List Char → List Char
  | [] => []
  | [c] => [c]
  | c :: d :: rest =>
    if c = '*' ∧ d = '*' then
      match h : findClose rest with
      | some (g, r') => g ++ unbold r'
      | none => '*' :: '*' :: unbold rest
    else c :: unbold (d :: rest)
termination_by l => l.length
decreasing_by
  · have key : ∀ (l : List Char) (p : List Char × List Char),
        findClose l = some p → p.2.length ≤ l.length := by
      intro l
      induction l with
      | nil => intro p hp; simp [findClose] at hp
      | cons c t ih =>
        intro p hp
        cases t with
        | nil => simp [findClose] at hp
        | cons d rest =>
          simp only [findClose] at hp
          split at hp
          · cases hp
            show rest.length ≤ (c :: d :: rest).length
            simp only [List.length_cons]
            omega
          · split at hp
            · simp at hp
            · simp only [Option.map_eq_some'] at hp
              obtain ⟨q, hq, rfl⟩ := hp
              have hlen := ih q hq
              show q.2.length ≤ (c :: d :: rest).length
              simp only [List.length_cons] at hlen ⊢
              omega
    have hr : r'.length ≤ rest.length := key rest (g, r') h
    simp only [List.length_cons]
    omega
  · simp only [List.length_cons]; omega
  · simp only [List.length_cons]; omega

/-- Second substitution of `clean_text`: `re.sub(r"[^\x00-\x7F]+", "", text)`
removes every character whose code point is above `0x7F`. -/
def strip (l : List Char) : List Char :=
  l.filter fun c => c.toNat ≤ 127

/-- Third substitution of `clean_text`: `re.sub(r"\n{2,}", "\n", text)`
replaces every (greedy, hence maximal) run of two or more newlines by a
single newline. -/
def collapse : List Char → List Char
  | [] => []
  | [c] => [c]
  | c :: d :: rest =>
    if c = '\n' ∧ d = '\n' then collapse (d :: rest)
    else c :: collapse (d :: rest)

/-- The three substitutions of `clean_text`, in source order, on `List Char`. -/
def cleanL (l : List Char) : List Char :=
  collapse (strip (unbold l))

/-- `clean_text` from `app.py`: "Removes markdown-style formatting like
**bold** and emojis from the text." -/
def clean_text (text : String) : String :=
  (cleanL text.toList).asString

/-- The instructional template of `generate_notes` (the f-string, with
`{subject}` interpolated). -/
def notesPrompt (subject : String) : String :=
  "\n        Title: Structured Study Notes on " ++ subject ++
  "\n        \n        As an AI assistant, your task is to generate **structured and detailed notes** from the transcript of a YouTube video. \n\n        The notes should be **well-formatted** and include:\n        - **Main topics & key concepts** (as section headings).\n        - **Bullet points or numbered lists** for explanations.\n        - **Examples, formulas, or real-world applications** (if mentioned in the video).\n        - **Concise explanations** that improve readability.\n\n        Here is the transcript of the video. Please extract and format the information into **structured and detailed notes**.\n    "

/-- The instructional template of `generate_aptitude_questions`. -/
def questionsPrompt (subject : String) : String :=
  "\n        Title: Placement Aptitude Questions for " ++ subject ++
  "\n        \n        As an AI assistant, generate **5-7 placement-level aptitude questions** commonly asked in technical interviews related to " ++ subject ++
  ". \n        Ensure the questions cover:\n        - **Conceptual understanding**\n        - **Problem-solving scenarios**\n        - **Real-world applications**\n        - **Multiple-choice or open-ended questions**\n\n        Format the questions properly with numbering.\n    "

/-- `generate_notes` from `app.py`.  The hosted language model is an opaque
text-to-text function `model` (one completion request); the function submits
the template concatenated with the transcript and normalizes the response. -/
def generate_notes (model : String → String) (transcript_text subject : String) : String :=
  clean_text (model (notesPrompt subject ++ transcript_text))

/-- `generate_aptitude_questions` from `app.py`: same model, subject-only
prompt, normalized response. -/
def generate_aptitude_questions (model : String → String) (subject : String) : String :=
  clean_text (model (questionsPrompt subject))

/-- One timed caption snippet returned by the caption service (the fields
`youtube_transcript_api` returns: `text`, `start`, `duration`; timing held
abstractly, `extract_transcript` only reads `text`). -/
structure CaptionFragment where
  text : String
  start : Int
  duration : Int
deriving DecidableEq

/-- `youtube_url.split("v=")[-1]`: the substring after the last occurrence of
`"v="` (the whole string when `"v="` does not occur — `split` never fails). -/
def videoId (youtube_url : String) : String :=
  (youtube_url.splitOn "v=").getLastD ""

/-- `extract_transcript` from `app.py`.  The caption service is an oracle
keyed by video identifier; any failure of the fetch is the `Except.error`
case of the oracle (the `except Exception` branch), turned into a
descriptive error-marked string rather than a raised exception. -/
def extract_transcript (youtube_url : String)
    (get_transcript : String → Except String (List CaptionFragment)) : String :=
  match get_transcript (videoId youtube_url) with
  | Except.ok transcript => " ".intercalate (transcript.map (·.text))
  | Except.error e => "Error fetching transcript: " ++ toString e

/-- The FPDF calls `save_as_pdf` performs, in order. -/
inductive PdfOp where
  | setAutoPageBreak (auto : Bool) (margin : Nat)
  | addPage
  | setFont (family style : String) (size : Nat)
  | cellText (w h : Nat) (txt : String) (ln : Bool) (align : String)
  | cellIndent (w : Nat)
  | lnBreak (h : Nat)
  | multiCell (w h : Nat) (txt : String)
deriving DecidableEq

/-- Python `str.isspace` for one character (what `line.strip()` strips):
ASCII whitespace, the C1 separators, and the Unicode space characters. -/
def pyIsSpace (c : Char) : Bool :=
  [' ', '\t', '\n', '\r', '\x0b', '\x0c',
   '\x1c', '\x1d', '\x1e', '\x1f', '\x85', '\xa0',
   '\u1680', '\u2000', '\u2001', '\u2002', '\u2003', '\u2004', '\u2005',
   '\u2006', '\u2007', '\u2008', '\u2009', '\u200A', '\u2028', '\u2029',
   '\u202F', '\u205F', '\u3000'].contains c

/-- Python falsiness of `line.strip()`: the line has no non-whitespace
character. -/
def isBlankLine (line : String) : Bool :=
  line.toList.all pyIsSpace

/-- The Unicode decimal-digit code-point ranges (general category Nd):
exactly what Python's `\d` matches in a `str` pattern. -/
def ndRanges : List (Nat × Nat) :=
  [(0x30, 0x39), (0x660, 0x669), (0x6f0, 0x6f9), (0x7c0, 0x7c9),
   (0x966, 0x96f), (0x9e6, 0x9ef), (0xa66, 0xa6f), (0xae6, 0xaef),
   (0xb66, 0xb6f), (0xbe6, 0xbef), (0xc66, 0xc6f), (0xce6, 0xcef),
   (0xd66, 0xd6f), (0xde6, 0xdef), (0xe50, 0xe59), (0xed0, 0xed9),
   (0xf20, 0xf29), (0x1040, 0x1049), (0x1090, 0x1099), (0x17e0, 0x17e9),
   (0x1810, 0x1819), (0x1946, 0x194f), (0x19d0, 0x19d9), (0x1a80, 0x1a89),
   (0x1a90, 0x1a99), (0x1b50, 0x1b59), (0x1bb0, 0x1bb9), (0x1c40, 0x1c49),
   (0x1c50, 0x1c59), (0xa620, 0xa629), (0xa8d0, 0xa8d9), (0xa900, 0xa909),
   (0xa9d0, 0xa9d9), (0xa9f0, 0xa9f9), (0xaa50, 0xaa59), (0xabf0, 0xabf9),
   (0xff10, 0xff19), (0x104a0, 0x104a9), (0x10d30, 0x10d39), (0x11066, 0x1106f),
   (0x110f0, 0x110f9), (0x11136, 0x1113f), (0x111d0, 0x111d9), (0x112f0, 0x112f9),
   (0x11450, 0x11459), (0x114d0, 0x114d9), (0x11650, 0x11659), (0x116c0, 0x116c9),
   (0x11730, 0x11739), (0x118e0, 0x118e9), (0x11950, 0x11959), (0x11c50, 0x11c59),
   (0x11d50, 0x11d59), (0x11da0, 0x11da9), (0x16a60, 0x16a69), (0x16ac0, 0x16ac9),
   (0x16b50, 0x16b59), (0x1d7ce, 0x1d7ff), (0x1e140, 0x1e149), (0x1e2f0, 0x1e2f9),
   (0x1e950, 0x1e959), (0x1fbf0, 0x1fbf9)]

/-- Python's `\d` on one character: any Unicode decimal digit, not only
ASCII. -/
def pyIsDigit (c : Char) : Bool :=
  ndRanges.any fun p => p.1 ≤ c.toNat && c.toNat ≤ p.2

/-- `re.match(r"^\d+\.", line)`: one or more leading decimal digits
followed by a period.  (`\d+` is greedy, but a period is not a digit, so
the pattern matches exactly when the maximal leading digit run is non-empty
and the next character is a period.) -/
def startsNumbered (line : String) : Bool :=
  match line.toList.dropWhile pyIsDigit with
  | '.' :: _ => !(line.toList.takeWhile pyIsDigit).isEmpty
  | _ => false

/-- The notes loop of `save_as_pdf`: skip lines that are empty after
stripping; indent bullet lines by an empty 10-wide cell; wrap each kept line
in a `multi_cell`. -/
def renderBodyNotes : List String → List PdfOp
  | [] => []
  | line :: rest =>
    (if isBlankLine line then []
     else
       (if line.startsWith "-" || line.startsWith "*" || line.startsWith "•"
        then [PdfOp.cellIndent 10] else [])
       ++ [PdfOp.multiCell 0 7 line])
    ++ renderBodyNotes rest

/-- The questions loop of `save_as_pdf`: skip blank lines; add a 3-unit
vertical break before lines that start with a number and a period; wrap each
kept line in a `multi_cell`. -/
def renderBodyQuestions : List String → List PdfOp
  | [] => []
  | line :: rest =>
    (if isBlankLine line then []
     else
       (if startsNumbered line then [PdfOp.lnBreak 3] else [])
       ++ [PdfOp.multiCell 0 7 line])
    ++ renderBodyQuestions rest

/-- `save_as_pdf` from `app.py`: the produced file name and the ordered list
of layout operations written into the document. -/
def save_as_pdf (notes questions subject : String) : String × List PdfOp :=
  let ops :=
    [PdfOp.setAutoPageBreak true 15, PdfOp.addPage,
     PdfOp.setFont "Arial" "B" 16,
     PdfOp.cellText 200 10 ("Study Notes on " ++ subject) true "C",
     PdfOp.lnBreak 10,
     PdfOp.setFont "Arial" "B" 14,
     PdfOp.cellText 200 10 "Detailed Notes" true "",
     PdfOp.lnBreak 5,
     PdfOp.setFont "Arial" "" 12]
    ++ renderBodyNotes (notes.splitOn "\n")
    ++ [PdfOp.lnBreak 10,
        PdfOp.setFont "Arial" "B" 14,
        PdfOp.cellText 200 10 "Placement Aptitude Questions" true "",
        PdfOp.lnBreak 5,
        PdfOp.setFont "Arial" "" 12]
    ++ renderBodyQuestions (questions.splitOn "\n")
  (subject ++ "_study_notes.pdf", ops)

/-- The text payload a layout operation emits into the document, if any. -/
def emittedText? : PdfOp → Option String
  | PdfOp.cellText _ _ t _ _ => some t
  | PdfOp.multiCell _ _ t => some t
  | _ => none

/-- The document's text contents, in emission order. -/
def emittedTexts (ops : List PdfOp) : List String :=
  ops.filterMap emittedText?

/-- Python `needle in haystack` on character lists. -/
def containsSub (pat : List Char) : List Char → Bool
  | [] => pat.isEmpty
  | c :: rest => pat.isPrefixOf (c :: rest) || containsSub pat rest

/-- What the Streamlit page shows after the button press, in order. -/
inductive UIEvent where
  | successMsg (msg : String)
  | notesShown (notes : String)
  | questionsShown (questions : String)
  | downloadOffered (filename : String)
  | errorShown (msg : String)
deriving DecidableEq

/-- The button branch of `main` from `app.py`: extract the transcript, and
when it is non-empty and free of the substring "Error", generate notes and
questions, export the PDF and offer the download; otherwise show exactly one
failure message. -/
def mainRun (youtube_link subject : String)
    (get_transcript : String → Except String (List CaptionFragment))
    (model : String → String) : List UIEvent :=
  let transcript_text := extract_transcript youtube_link get_transcript
  if (!transcript_text.isEmpty)
      && !containsSub "Error".toList transcript_text.toList then
    let detailed_notes := generate_notes model transcript_text subject
    let aptitude_questions := generate_aptitude_questions model subject
    let pdf_filename := (save_as_pdf detailed_notes aptitude_questions subject).1
    [UIEvent.successMsg "✅ Transcript extracted successfully!",
     UIEvent.notesShown detailed_notes,
     UIEvent.questionsShown aptitude_questions,
     UIEvent.downloadOffered pdf_filename]
  else
    [UIEvent.errorShown "⚠️ Failed to extract transcript. Please check the video link."]

/-- A position where the bold pattern `\*\*(.*?)\*\*` matches: `**`, then a
closing `**` on the same line. -/
def startsM : List Char → Bool
  | c :: d :: rest => c = '*' && d = '*' && (findClose rest).isSome
  | _ => false

/-- The bold pattern matches somewhere in the list. -/
def hasM : List Char → Bool
  | [] => false
  | c :: rest => startsM (c :: rest) || hasM rest

/-- Two consecutive newline characters occur somewhere in the list. -/
def hasNN : List Char → Bool
  | c :: d :: rest => (c = '\n' && d = '\n') || hasNN (d :: rest)
  | _ => false

def noDoubleStar : List Char → Bool
  | c :: d :: rest => !(c = '*' && d = '*') && noDoubleStar (d :: rest)
  | _ => true

theorem findClose_sound : ∀ {l g r : List Char}, findClose l = some (g, r) →
    l = g ++ '*' :: '*' :: r ∧ noDoubleStar g = true ∧
      g.getLast? ≠ some '*' ∧ '\n' ∉ g := by
  intro l
  induction l with
  | nil => intro g r h; simp [findClose] at h
  | cons c t ih =>
    intro g r h
    cases t with
    | nil => simp [findClose] at h
    | cons d rest =>
      simp only [findClose] at h
      split at h
      · rename_i hstar
        cases h
        exact ⟨by simp [hstar.1, hstar.2], by simp [noDoubleStar], by simp, by simp⟩
      · split at h
        · simp at h
        · rename_i hnotstar hnotnl
          simp only [Option.map_eq_some'] at h
          obtain ⟨q, hq, heq⟩ := h
          obtain ⟨hdec, hnss, hlast, hnl⟩ := ih hq
          cases heq
          refine ⟨by simpa using hdec, ?_, ?_, ?_⟩
          · cases hq1 : q.1 with
            | nil =>
              simp [noDoubleStar]
            | cons e q' =>
              rw [hq1] at hdec hnss
              have he : d = e := by
                have := congrArg List.head? hdec
                simpa using this
              subst he
              simp only [noDoubleStar, Bool.and_eq_true, Bool.not_eq_true']
              refine ⟨?_, hnss⟩
              by_cases hc : c = '*'
              · have hd : d ≠ '*' := fun hd => hnotstar ⟨hc, hd⟩
                simp [hc, hd]
              · simp [hc]
          · cases hq1 : q.1 with
            | nil =>
              rw [hq1] at hdec
              have hd : d = '*' := by
                have := congrArg List.head? hdec
                simpa using this
              have hc : c ≠ '*' := fun hc => hnotstar ⟨hc, hd⟩
              simp [hc]
            | cons e q' =>
              rw [hq1] at hlast
              rw [List.getLast?_cons_cons]
              exact hlast
          · simp only [List.mem_cons, not_or]
            exact ⟨fun hh => hnotnl hh.symm, hnl⟩

theorem unbold_nil : unbold [] = [] := by simp [unbold]

theorem unbold_single (c : Char) : unbold [c] = [c] := by simp [unbold]

theorem unbold_open_some {rest g r' : List Char} (h : findClose rest = some (g, r')) :
    unbold ('*' :: '*' :: rest) = g ++ unbold r' := by
  rw [unbold, if_pos ⟨rfl, rfl⟩]
  split
  · rename_i g2 r2 heq
    rw [h] at heq
    injection heq with hp
    injection hp with h1 h2
    subst h1; subst h2
    rfl
  · rename_i heq
    rw [h] at heq
    cases heq

theorem unbold_open_none {rest : List Char} (h : findClose rest = none) :
    unbold ('*' :: '*' :: rest) = '*' :: '*' :: unbold rest := by
  rw [unbold, if_pos ⟨rfl, rfl⟩]
  split
  · rename_i g2 r2 heq
    rw [h] at heq
    cases heq
  · rfl

theorem unbold_cons_cons {c d : Char} {rest : List Char} (h : ¬(c = '*' ∧ d = '*')) :
    unbold (c :: d :: rest) = c :: unbold (d :: rest) := by
  rw [unbold]
  simp [h]

theorem unbold_cons_of_ne {c : Char} {l : List Char} (h : c ≠ '*') :
    unbold (c :: l) = c :: unbold l := by
  cases l with
  | nil => simp [unbold]
  | cons d rest => exact unbold_cons_cons (fun hh => h hh.1)

theorem unbold_head {l : List Char} (h : l.head? ≠ some '*') :
    (unbold l).head? = l.head? := by
  cases l with
  | nil => simp [unbold]
  | cons c rest =>
    have hc : c ≠ '*' := by simpa using h
    rw [unbold_cons_of_ne hc]
    simp

theorem findClose_newline (l : List Char) : findClose ('\n' :: l) = none := by
  cases l with
  | nil => rfl
  | cons d rest => simp [findClose]

theorem collapse_cons (d : Char) (rest : List Char) :
    ∃ w, collapse (d :: rest) = d :: w := by
  induction rest generalizing d with
  | nil => exact ⟨[], rfl⟩
  | cons e r2 ih =>
    by_cases h : d = '\n' ∧ e = '\n'
    · obtain ⟨w, hw⟩ := ih e
      refine ⟨w, ?_⟩
      rw [collapse, if_pos h, hw, h.1, h.2]
    · exact ⟨collapse (e :: r2), by rw [collapse, if_neg h]⟩

theorem findClose_collapse {l : List Char} (h : findClose l = none) :
    findClose (collapse l) = none := by
  induction l using collapse.induct with
  | case1 => simpa [collapse] using h
  | case2 c => simpa [collapse] using h
  | case3 c d rest hnl ih =>
    rw [collapse, if_pos hnl]
    exact ih (hnl.2 ▸ findClose_newline rest)
  | case4 c d rest hnl ih =>
    rw [collapse, if_neg hnl]
    by_cases hstar : c = '*' ∧ d = '*'
    · rw [findClose, if_pos hstar] at h
      cases h
    · by_cases hc : c = '\n'
      · subst hc
        exact findClose_newline _
      · rw [findClose, if_neg hstar, if_neg hc, Option.map_eq_none'] at h
        have h2 := ih h
        obtain ⟨w, hw⟩ := collapse_cons d rest
        rw [hw]
        rw [hw] at h2
        rw [findClose, if_neg hstar, if_neg hc, Option.map_eq_none']
        exact h2

theorem collapse_idem (l : List Char) : collapse (collapse l) = collapse l := by
  induction l using collapse.induct with
  | case1 => rfl
  | case2 c => rfl
  | case3 c d rest hnl ih =>
    rw [collapse, if_pos hnl]
    exact ih
  | case4 c d rest hnl ih =>
    rw [collapse, if_neg hnl]
    obtain ⟨w, hw⟩ := collapse_cons d rest
    rw [hw, collapse, if_neg hnl, ← hw, ih, hw]

theorem collapse_of_no_newline {l : List Char} (h : '\n' ∉ l) : collapse l = l := by
  induction l using collapse.induct with
  | case1 => rfl
  | case2 c => rfl
  | case3 c d rest hnl ih =>
    exact absurd (by rw [hnl.1]; exact List.mem_cons_self _ _) h
  | case4 c d rest hnl ih =>
    rw [collapse, if_neg hnl, ih (fun hm => h (List.mem_cons_of_mem c hm))]

theorem collapse_noNN (l : List Char) : hasNN (collapse l) = false := by
  induction l using collapse.induct with
  | case1 => rfl
  | case2 c => rfl
  | case3 c d rest hnl ih =>
    rw [collapse, if_pos hnl]
    exact ih
  | case4 c d rest hnl ih =>
    rw [collapse, if_neg hnl]
    obtain ⟨w, hw⟩ := collapse_cons d rest
    rw [hw, hasNN]
    have h1 : (c = '\n' && d = '\n') = false := by
      by_cases hc : c = '\n'
      · have hd : ¬(d = '\n') := fun hd => hnl ⟨hc, hd⟩
        simp [hd]
      · simp [hc]
    rw [h1, ← hw, ih]
    rfl

theorem collapse_subset {a : Char} {l : List Char} (h : a ∈ collapse l) : a ∈ l := by
  induction l using collapse.induct with
  | case1 => simpa [collapse] using h
  | case2 c => simpa [collapse] using h
  | case3 c d rest hnl ih =>
    rw [collapse, if_pos hnl] at h
    exact List.mem_cons_of_mem c (ih h)
  | case4 c d rest hnl ih =>
    rw [collapse, if_neg hnl] at h
    rcases List.mem_cons.mp h with h1 | h2
    · exact h1 ▸ List.mem_cons_self _ _
    · exact List.mem_cons_of_mem c (ih h2)

theorem unbold_subset {a : Char} : ∀ {l : List Char}, a ∈ unbold l → a ∈ l := by
  intro l
  induction l using unbold.induct with
  | case1 => intro h; simp [unbold] at h
  | case2 c => intro h; rwa [unbold_single] at h
  | case3 c d rest hstar g r' hfc ih =>
    intro h
    obtain ⟨rfl, rfl⟩ := hstar
    rw [unbold_open_some hfc] at h
    obtain ⟨hdec, -, -, -⟩ := findClose_sound hfc
    rcases List.mem_append.mp h with h1 | h2
    · have : a ∈ rest := by rw [hdec]; exact List.mem_append.mpr (Or.inl h1)
      exact List.mem_cons_of_mem _ (List.mem_cons_of_mem _ this)
    · have : a ∈ r' := ih h2
      have : a ∈ rest := by
        rw [hdec]
        exact List.mem_append.mpr (Or.inr (by simp [this]))
      exact List.mem_cons_of_mem _ (List.mem_cons_of_mem _ this)
  | case4 c d rest hstar hfc ih =>
    intro h
    obtain ⟨rfl, rfl⟩ := hstar
    rw [unbold_open_none hfc] at h
    rcases List.mem_cons.mp h with h1 | h2
    · exact h1 ▸ List.mem_cons_self _ _
    · rcases List.mem_cons.mp h2 with h3 | h4
      · exact h3 ▸ List.mem_cons_of_mem _ (List.mem_cons_self _ _)
      · exact List.mem_cons_of_mem _ (List.mem_cons_of_mem _ (ih h4))
  | case5 c d rest hstar ih =>
    intro h
    rw [unbold_cons_cons hstar] at h
    rcases List.mem_cons.mp h with h1 | h2
    · exact h1 ▸ List.mem_cons_self _ _
    · exact List.mem_cons_of_mem c (ih h2)

theorem unbold_eq_self {l : List Char} (h : hasM l = false) : unbold l = l := by
  induction l using unbold.induct with
  | case1 => exact unbold_nil
  | case2 c => exact unbold_single c
  | case3 c d rest hstar g r' hfc ih =>
    obtain ⟨rfl, rfl⟩ := hstar
    rw [hasM, Bool.or_eq_false_iff] at h
    rw [startsM] at h
    simp [hfc] at h
  | case4 c d rest hstar hfc ih =>
    obtain ⟨rfl, rfl⟩ := hstar
    rw [hasM, Bool.or_eq_false_iff] at h
    rw [hasM, Bool.or_eq_false_iff] at h
    rw [unbold_open_none hfc, ih h.2.2]
  | case5 c d rest hstar ih =>
    rw [hasM, Bool.or_eq_false_iff] at h
    rw [unbold_cons_cons hstar, ih h.2]

theorem findClose_unbold {l : List Char} (h : findClose l = none) :
    findClose (unbold l) = none := by
  induction l using unbold.induct with
  | case1 => simpa [unbold] using h
  | case2 c => rwa [unbold_single]
  | case3 c d rest hstar g r' hfc ih =>
    obtain ⟨rfl, rfl⟩ := hstar
    rw [findClose, if_pos ⟨rfl, rfl⟩] at h
    cases h
  | case4 c d rest hstar hfc ih =>
    obtain ⟨rfl, rfl⟩ := hstar
    rw [findClose, if_pos ⟨rfl, rfl⟩] at h
    cases h
  | case5 c d rest hstar ih =>
    by_cases hc : c = '\n'
    · subst hc
      rw [unbold_cons_of_ne (by decide)]
      exact findClose_newline _
    · rw [findClose, if_neg hstar, if_neg hc, Option.map_eq_none'] at h
      have h2 := ih h
      have hshape : ∃ w, unbold (d :: rest) = d :: w := by
        cases rest with
        | nil => exact ⟨[], unbold_single d⟩
        | cons e r3 =>
          by_cases hde : d = '*' ∧ e = '*'
          · exfalso
            rw [findClose, if_pos hde] at h
            cases h
          · exact ⟨unbold (e :: r3), unbold_cons_cons hde⟩
      obtain ⟨w, hw⟩ := hshape
      rw [unbold_cons_cons hstar, hw]
      rw [hw] at h2
      rw [findClose, if_neg hstar, if_neg hc, Option.map_eq_none']
      exact h2

theorem startsM_star_cons {w : List Char} (h : findClose w = none) :
    startsM ('*' :: w) = false := by
  cases w with
  | nil => rfl
  | cons b w' =>
    by_cases hb : b = '*'
    · subst hb
      cases w' with
      | nil => rfl
      | cons e w'' =>
        by_cases he : e = '*'
        · exfalso
          rw [findClose, if_pos ⟨rfl, he⟩] at h
          cases h
        · rw [findClose, if_neg (fun hh => he hh.2), if_neg (by decide),
            Option.map_eq_none'] at h
          rw [startsM, h]
          rfl
    · rw [startsM]
      simp [hb]

theorem hasM_append_group : ∀ {g z : List Char}, noDoubleStar g = true →
    g.getLast? ≠ some '*' → hasM z = false → hasM (g ++ z) = false := by
  intro g
  induction g with
  | nil => intro z _ _ hz; simpa using hz
  | cons a g' ih =>
    intro z hnss hlast hz
    rw [List.cons_append, hasM, Bool.or_eq_false_iff]
    constructor
    · cases g' with
      | nil =>
        have ha : a ≠ '*' := by simpa using hlast
        cases z with
        | nil => rfl
        | cons b z' => simp [startsM, ha]
      | cons b g'' =>
        rw [noDoubleStar, Bool.and_eq_true] at hnss
        have h1 : ¬(a = '*') ∨ ¬(b = '*') := by simpa using hnss.1
        rw [List.cons_append]
        by_cases hab : a = '*'
        · have hb : b ≠ '*' := h1.resolve_left (fun hna => hna hab)
          simp [startsM, hb]
        · simp [startsM, hab]
    · apply ih
      · cases g' with
        | nil => rfl
        | cons b g'' => exact (Bool.and_eq_true _ _ ▸ hnss).2
      · cases g' with
        | nil => simp
        | cons b g'' => rwa [List.getLast?_cons_cons] at hlast
      · exact hz

theorem unbold_hasM (l : List Char) : hasM (unbold l) = false := by
  induction l using unbold.induct with
  | case1 => rw [unbold_nil]; rfl
  | case2 c => rw [unbold_single]; rfl
  | case3 c d rest hstar g r' hfc ih =>
    obtain ⟨rfl, rfl⟩ := hstar
    rw [unbold_open_some hfc]
    obtain ⟨-, hnss, hlast, -⟩ := findClose_sound hfc
    exact hasM_append_group hnss hlast ih
  | case4 c d rest hstar hfc ih =>
    obtain ⟨rfl, rfl⟩ := hstar
    rw [unbold_open_none hfc]
    rw [hasM, hasM, Bool.or_eq_false_iff, Bool.or_eq_false_iff]
    refine ⟨?_, ?_, ih⟩
    · rw [startsM, findClose_unbold hfc]
      rfl
    · exact startsM_star_cons (findClose_unbold hfc)
  | case5 c d rest hstar ih =>
    rw [unbold_cons_cons hstar]
    rw [hasM, Bool.or_eq_false_iff]
    refine ⟨?_, ih⟩
    by_cases hc : c = '*'
    · subst hc
      have hd : ¬(d = '*') := fun hd => hstar ⟨rfl, hd⟩
      have hshape : ∃ w, unbold (d :: rest) = d :: w := by
        cases rest with
        | nil => exact ⟨[], unbold_single d⟩
        | cons e r3 => exact ⟨unbold (e :: r3), unbold_cons_cons (fun hh => hd hh.1)⟩
      obtain ⟨w, hw⟩ := hshape
      rw [hw, startsM]
      simp [hd]
    · cases hu : unbold (d :: rest) with
      | nil => rfl
      | cons b w' => rw [startsM]; simp [hc]

theorem collapse_hasM {l : List Char} (h : hasM l = false) :
    hasM (collapse l) = false := by
  induction l using collapse.induct with
  | case1 => rfl
  | case2 c => rfl
  | case3 c d rest hnl ih =>
    rw [collapse, if_pos hnl]
    rw [hasM, Bool.or_eq_false_iff] at h
    exact ih h.2
  | case4 c d rest hnl ih =>
    rw [collapse, if_neg hnl]
    rw [hasM, Bool.or_eq_false_iff] at h
    obtain ⟨w, hw⟩ := collapse_cons d rest
    rw [hw, hasM, Bool.or_eq_false_iff]
    refine ⟨?_, ?_⟩
    · rw [startsM]
      by_cases hstar : c = '*' ∧ d = '*'
      · obtain ⟨rfl, rfl⟩ := hstar
        rw [startsM] at h
        have hfc : findClose rest = none := by
          rcases h1 : findClose rest with _ | p
          · rfl
          · rw [h1] at h; simp at h
        have hfcw : findClose w = none := by
          cases rest with
          | nil =>
            have h0 : ('*' :: [] : List Char) = '*' :: w := by
              rw [← hw]
              rfl
            injection h0 with _ h2
            rw [← h2]
            rfl
          | cons e r3 =>
            have hcol : collapse ('*' :: e :: r3) = '*' :: collapse (e :: r3) := by
              rw [collapse, if_neg (by intro hh; exact absurd hh.1 (by decide))]
            rw [hcol] at hw
            injection hw with _ hw2
            rw [← hw2]
            exact findClose_collapse hfc
        rw [hfcw]
        rfl
      · simp only [Bool.and_eq_false_iff]
        left
        by_cases hcs : c = '*'
        · have hd : ¬(d = '*') := fun hd => hstar ⟨hcs, hd⟩
          simp [hd]
        · simp [hcs]
    · rw [← hw]
      exact ih h.2

theorem strip_eq_self {l : List Char} (h : ∀ c ∈ l, c.toNat ≤ 127) :
    strip l = l := by
  rw [strip]
  exact List.filter_eq_self.mpr fun a ha => decide_eq_true (h a ha)

theorem strip_ascii {l : List Char} {c : Char} (h : c ∈ strip l) : c.toNat ≤ 127 := by
  rw [strip] at h
  exact of_decide_eq_true (List.mem_filter.mp h).2

theorem cleanL_ascii (l : List Char) : ∀ c ∈ cleanL l, c.toNat ≤ 127 := by
  intro c hc
  rw [cleanL] at hc
  exact strip_ascii (collapse_subset hc)

theorem cleanL_idem_of_ascii {l : List Char} (h : ∀ c ∈ l, c.toNat ≤ 127) :
    cleanL (cleanL l) = cleanL l := by
  have hstrip : strip (unbold l) = unbold l :=
    strip_eq_self fun c hc => h c (unbold_subset hc)
  have hy : cleanL l = collapse (unbold l) := by rw [cleanL, hstrip]
  have hM : hasM (collapse (unbold l)) = false := collapse_hasM (unbold_hasM l)
  have hub : unbold (cleanL l) = cleanL l := by
    rw [hy]; exact unbold_eq_self hM
  calc cleanL (cleanL l) = collapse (strip (unbold (cleanL l))) := rfl
    _ = collapse (strip (cleanL l)) := by rw [hub]
    _ = collapse (cleanL l) := by rw [strip_eq_self (cleanL_ascii l)]
    _ = collapse (collapse (unbold l)) := by rw [hy]
    _ = collapse (unbold l) := collapse_idem _
    _ = cleanL l := hy.symm

theorem toList_asString (l : List Char) : (List.asString l).toList = l := rfl

theorem asString_toList (s : String) : s.toList.asString = s := rfl

theorem clean_text_eval_mixed : clean_text "*é*x*é*" = "**x**" := by
  have hu : unbold ['*', 'é', '*', 'x', '*', 'é', '*'] =
      ['*', 'é', '*', 'x', '*', 'é', '*'] := by
    simp [unbold, findClose]
  show (collapse (strip (unbold "*é*x*é*".toList))).asString = "**x**"
  rw [show "*é*x*é*".toList = ['*', 'é', '*', 'x', '*', 'é', '*'] from rfl, hu]
  decide

theorem clean_text_eval_bold : clean_text "**x**" = "x" := by
  have hu : unbold ['*', '*', 'x', '*', '*'] = ['x'] := by
    simp [unbold, findClose]
  show (collapse (strip (unbold "**x**".toList))).asString = "x"
  rw [show "**x**".toList = ['*', '*', 'x', '*', '*'] from rfl, hu]
  decide

/-- Counterexample to C1.  Stripping the non-ASCII characters of
`"*é*x*é*"` creates a fresh bold span, so the first normalization returns
`"**x**"` while a second normalization unwraps it to `"x"`: `clean_text` is
not idempotent. -/
theorem clean_text_not_idempotent :
    clean_text (clean_text "*é*x*é*") ≠ clean_text "*é*x*é*" := by
  rw [clean_text_eval_mixed, clean_text_eval_bold]
  decide

/-- C1 (amended): on inputs whose characters are all 7-bit (code point at
most 127) the normalizer is idempotent:
`clean_text (clean_text x) = clean_text x`. -/
theorem clean_text_idempotent_of_ascii (x : String)
    (h : x.toList.all (fun c => c.toNat ≤ 127) = true) :
    clean_text (clean_text x) = clean_text x := by
  have h' : ∀ c ∈ x.toList, c.toNat ≤ 127 := fun c hc =>
    of_decide_eq_true (List.all_eq_true.mp h c hc)
  show (cleanL (cleanL x.toList).asString.toList).asString = (cleanL x.toList).asString
  rw [toList_asString, cleanL_idem_of_ascii h']

/-- Witness for C1's amended theorem at the all-ASCII input
`"a**b**\n\nc"`. -/
theorem clean_text_idempotent_of_ascii_witness :
    clean_text (clean_text "a**b**\n\nc") = clean_text "a**b**\n\nc" :=
  clean_text_idempotent_of_ascii "a**b**\n\nc" (by decide)

/-- Counterexample to C4.  The control character `U+0007` is outside the
7-bit printable range yet `clean_text` keeps it: only code points above
`0x7F` are removed. -/
theorem clean_text_keeps_control_char :
    clean_text "\x07" = "\x07" ∧ '\x07'.toNat < 32 := by
  constructor
  · show (collapse (strip (unbold "\x07".toList))).asString = "\x07"
    rw [show "\x07".toList = ['\x07'] from rfl, unbold_single]
    decide
  · decide

/-- C4 (amended): every character of the normalizer's output is 7-bit (code
point at most 127); characters with larger code points — emoji and other
non-ASCII symbols — are removed, but 7-bit control characters are kept. -/
theorem clean_text_output_ascii (x : String) :
    (clean_text x).toList.all (fun c => c.toNat ≤ 127) = true :=
  List.all_eq_true.mpr fun c hc => decide_eq_true (cleanL_ascii x.toList c hc)

/-- C6: the run-collapsing substitution is last, so the normalizer's output
never contains two consecutive newline characters. -/
theorem clean_text_no_double_newline (x : String) :
    hasNN (clean_text x).toList = false := by
  show hasNN (collapse (strip (unbold x.toList))) = false
  exact collapse_noNN _

theorem findClose_append_group {g r : List Char} (hstar : '*' ∉ g)
    (hnl : '\n' ∉ g) : findClose (g ++ '*' :: '*' :: r) = some (g, r) := by
  induction g with
  | nil =>
    rw [List.nil_append, findClose, if_pos ⟨rfl, rfl⟩]
  | cons c g' ih =>
    have hc1 : c ≠ '*' := fun hh => hstar (hh ▸ List.mem_cons_self _ _)
    have hc2 : c ≠ '\n' := fun hh => hnl (hh ▸ List.mem_cons_self _ _)
    have ih' := ih (fun hm => hstar (List.mem_cons_of_mem c hm))
      (fun hm => hnl (List.mem_cons_of_mem c hm))
    rcases hX : g' ++ '*' :: '*' :: r with _ | ⟨e, X'⟩
    · cases g' <;> simp at hX
    · rw [List.cons_append, hX, findClose,
        if_neg (fun hh => hc1 hh.1), if_neg hc2, ← hX, ih']
      rfl

/-- Counterexample to C5.  The input `"**é**"` contains a span wrapped in
double-asterisk markers, but the normalizer does not preserve the wrapped
text `"é"`: the later non-ASCII pass deletes it, and the output is empty. -/
theorem clean_text_span_not_verbatim :
    clean_text "**é**" = "" ∧ containsSub "é".toList "".toList = false := by
  constructor
  · have hu : unbold ['*', '*', 'é', '*', '*'] = ['é'] := by
      simp [unbold, findClose]
    show (collapse (strip (unbold "**é**".toList))).asString = ""
    rw [show "**é**".toList = ['*', '*', 'é', '*', '*'] from rfl, hu]
    decide
  · decide

/-- C5 (amended): for a double-asterisk-wrapped span whose inner text
contains no asterisk, no newline and no non-ASCII character, the normalizer
removes the markers and returns the inner text verbatim.  (Inner non-ASCII
characters are deleted by the later pass, an inner newline prevents the
match, and surrounding text can pair with the span's markers and change the
result, so those cases are excluded.) -/
theorem clean_text_unwraps (g : String) (h1 : '*' ∉ g.toList)
    (h2 : '\n' ∉ g.toList)
    (h3 : g.toList.all (fun c => c.toNat ≤ 127) = true) :
    clean_text ("**" ++ g ++ "**") = g := by
  have htl : ("**" ++ g ++ "**").toList = '*' :: '*' :: (g.toList ++ '*' :: '*' :: []) := by
    rw [show ("**" ++ g ++ "**") = ("**" ++ g) ++ "**" from rfl]
    rw [show (("**" ++ g) ++ "**").toList = ("**" ++ g).toList ++ "**".toList from
      String.data_append _ _]
    rw [show ("**" ++ g).toList = "**".toList ++ g.toList from String.data_append _ _]
    simp
  have h3' : ∀ c ∈ g.toList, c.toNat ≤ 127 := fun c hc =>
    of_decide_eq_true (List.all_eq_true.mp h3 c hc)
  show (collapse (strip (unbold ("**" ++ g ++ "**").toList))).asString = g
  rw [htl, unbold_open_some (findClose_append_group h1 h2), unbold_nil,
    List.append_nil, strip_eq_self h3', collapse_of_no_newline h2]
  exact asString_toList g

/-- Witness for C5's amended theorem: `"**hello**"` normalizes to
`"hello"`. -/
theorem clean_text_unwraps_witness :
    clean_text ("**" ++ "hello" ++ "**") = "hello" :=
  clean_text_unwraps "hello" (by decide) (by decide) (by decide)

/-- Counterexample to C3.  If the model's response is `"*é*x*é*"`, the Notes
Generator's normalized output is `"**x**"`: it still contains a
double-asterisk sequence — indeed a whole emphasis-wrapped span — because
the non-ASCII pass runs after the bold pass and can create new markers. -/
theorem generate_notes_emphasis_counterexample :
    generate_notes (fun _ => "*é*x*é*") "t" "DBMS" = "**x**" ∧
      containsSub ['*', '*'] "**x**".toList = true := by
  constructor
  · show clean_text "*é*x*é*" = "**x**"
    exact clean_text_eval_mixed
  · decide

/-- C3 (amended): the Notes Generator's output contains only 7-bit
characters for every model response, and — provided the response itself is
7-bit — no double-asterisk-wrapped span; an unpaired double-asterisk
sequence may remain in the output even for 7-bit responses. -/
theorem generate_notes_contract :
    (∀ (model : String → String) (t s : String),
        (model (notesPrompt s ++ t)).toList.all (fun c => c.toNat ≤ 127) = true →
          hasM (generate_notes model t s).toList = false) ∧
    (∀ (model : String → String) (t s : String),
        (generate_notes model t s).toList.all (fun c => c.toNat ≤ 127) = true) := by
  constructor
  · intro model t s h
    have h' : ∀ c ∈ (model (notesPrompt s ++ t)).toList, c.toNat ≤ 127 :=
      fun c hc => of_decide_eq_true (List.all_eq_true.mp h c hc)
    show hasM (collapse (strip (unbold (model (notesPrompt s ++ t)).toList))) = false
    rw [strip_eq_self fun c hc => h' c (unbold_subset hc)]
    exact collapse_hasM (unbold_hasM _)
  · intro model t s
    exact List.all_eq_true.mpr fun c hc =>
      decide_eq_true (cleanL_ascii (model (notesPrompt s ++ t)).toList c hc)

/-- Witness for C3's amended theorem: a 7-bit model response, here
`"ok **notes** *"`, yields output with no emphasis-wrapped span. -/
theorem generate_notes_contract_witness :
    hasM (generate_notes (fun _ => "ok **notes** *") "t" "OS").toList = false :=
  generate_notes_contract.1 (fun _ => "ok **notes** *") "t" "OS" (by decide)

/-- C7: `extract_transcript` is total — for every locator and every outcome
of the caption service it returns a string: the space-joined fragments on
success, and a string prefixed `"Error fetching transcript: "` carrying the
error detail on any failure (including a locator with no extractable
identifier, whose lookup simply fails at the service). -/
theorem extract_transcript_total (youtube_url : String)
    (get_transcript : String → Except String (List CaptionFragment)) :
    (∃ e, get_transcript (videoId youtube_url) = Except.error e ∧
        extract_transcript youtube_url get_transcript =
          "Error fetching transcript: " ++ e) ∨
    (∃ frags, get_transcript (videoId youtube_url) = Except.ok frags ∧
        extract_transcript youtube_url get_transcript =
          " ".intercalate (frags.map (·.text))) := by
  rcases h : get_transcript (videoId youtube_url) with e | frags
  · left
    exact ⟨e, rfl, by unfold extract_transcript; rw [h]; rfl⟩
  · right
    exact ⟨frags, rfl, by unfold extract_transcript; rw [h]⟩

/-- C8: on success the transcript is exactly the fragments' text fields
joined with single spaces, in service order; the timing fields are not
read. -/
theorem extract_transcript_joins (youtube_url : String)
    (get_transcript : String → Except String (List CaptionFragment))
    (frags : List CaptionFragment)
    (h : get_transcript (videoId youtube_url) = Except.ok frags) :
    extract_transcript youtube_url get_transcript =
      " ".intercalate (frags.map (·.text)) := by
  unfold extract_transcript
  rw [h]

/-- Witness for C8 at the spec's end-to-end scenario: fragments `"Hello"`
and `"world"` join to `"Hello world"`. -/
theorem extract_transcript_joins_witness :
    extract_transcript "https://youtube.com/watch?v=abc123"
        (fun _ => Except.ok [⟨"Hello", 0, 1⟩, ⟨"world", 1, 1⟩]) = "Hello world" := by
  rw [extract_transcript_joins "https://youtube.com/watch?v=abc123"
    (fun _ => Except.ok [⟨"Hello", 0, 1⟩, ⟨"world", 1, 1⟩])
    [⟨"Hello", 0, 1⟩, ⟨"world", 1, 1⟩] rfl]
  decide

theorem mainRun_eq (youtube_link subject : String)
    (get_transcript : String → Except String (List CaptionFragment))
    (model : String → String) :
    mainRun youtube_link subject get_transcript model =
      (if ((!(extract_transcript youtube_link get_transcript).isEmpty)
            && !containsSub "Error".toList
                (extract_transcript youtube_link get_transcript).toList) = true then
        [UIEvent.successMsg "✅ Transcript extracted successfully!",
         UIEvent.notesShown
           (generate_notes model (extract_transcript youtube_link get_transcript) subject),
         UIEvent.questionsShown (generate_aptitude_questions model subject),
         UIEvent.downloadOffered
           ((save_as_pdf
             (generate_notes model (extract_transcript youtube_link get_transcript) subject)
             (generate_aptitude_questions model subject) subject).1)]
      else
        [UIEvent.errorShown "⚠️ Failed to extract transcript. Please check the video link."]) :=
  rfl

/-- C2: the pipeline's later steps run exactly when the extracted transcript
is non-empty and does not contain the substring `"Error"`; otherwise — the
transcript is empty, or contains `"Error"` anywhere (even as legitimate
content) — the run shows exactly the one failure message. -/
theorem mainRun_gates (youtube_link subject : String)
    (get_transcript : String → Except String (List CaptionFragment))
    (model : String → String) :
    ((∃ n q f, mainRun youtube_link subject get_transcript model =
        [UIEvent.successMsg "✅ Transcript extracted successfully!",
         UIEvent.notesShown n, UIEvent.questionsShown q,
         UIEvent.downloadOffered f]) ↔
      ((extract_transcript youtube_link get_transcript).isEmpty = false ∧
        containsSub "Error".toList
          (extract_transcript youtube_link get_transcript).toList = false)) ∧
    (((extract_transcript youtube_link get_transcript).isEmpty = true ∨
        containsSub "Error".toList
          (extract_transcript youtube_link get_transcript).toList = true) →
      mainRun youtube_link subject get_transcript model =
        [UIEvent.errorShown "⚠️ Failed to extract transcript. Please check the video link."]) := by
  rw [mainRun_eq]
  by_cases hc : ((!(extract_transcript youtube_link get_transcript).isEmpty)
      && !containsSub "Error".toList
          (extract_transcript youtube_link get_transcript).toList) = true
  · rw [if_pos hc]
    simp only [Bool.and_eq_true, Bool.not_eq_true'] at hc
    constructor
    · constructor
      · intro _
        exact hc
      · intro _
        exact ⟨_, _, _, rfl⟩
    · intro hErr
      rcases hErr with h | h
      · rw [h] at hc
        cases hc.1
      · rw [h] at hc
        cases hc.2
  · rw [if_neg hc]
    simp only [Bool.and_eq_true, Bool.not_eq_true', not_and_or] at hc
    constructor
    · constructor
      · intro ⟨n, q, f, habs⟩
        cases habs
      · intro hyes
        rcases hc with h1 | h2
        · exact absurd hyes.1 h1
        · exact absurd hyes.2 h2
    · intro _
      rfl

/-- Witness for C2's failure branch at the empty-transcript cause: a
service success with no fragments joins to the empty transcript, and the
run shows exactly the one failure message. -/
theorem mainRun_gates_witness :
    mainRun "mylink" "DBMS" (fun _ => Except.ok []) (fun r => r) =
      [UIEvent.errorShown "⚠️ Failed to extract transcript. Please check the video link."] :=
  (mainRun_gates "mylink" "DBMS" (fun _ => Except.ok []) (fun r => r)).2
    (Or.inl (by decide))

theorem emittedTexts_append (a b : List PdfOp) :
    emittedTexts (a ++ b) = emittedTexts a ++ emittedTexts b := by
  simp [emittedTexts, List.filterMap_append]

theorem emittedTexts_notes (ls : List String) :
    emittedTexts (renderBodyNotes ls) = ls.filter (fun l => !isBlankLine l) := by
  induction ls with
  | nil => rfl
  | cons line rest ih =>
    by_cases hb : isBlankLine line = true
    · simp only [renderBodyNotes, hb, if_true, List.nil_append, List.filter_cons,
        Bool.not_true, Bool.false_eq_true, if_false]
      exact ih
    · by_cases hs : (line.startsWith "-" || line.startsWith "*"
          || line.startsWith "•") = true
      · simp [renderBodyNotes, hb, hs, List.filter_cons, emittedTexts, emittedText?]
        exact ih
      · simp [renderBodyNotes, hb, hs, List.filter_cons, emittedTexts, emittedText?]
        exact ih

theorem emittedTexts_questions (ls : List String) :
    emittedTexts (renderBodyQuestions ls) = ls.filter (fun l => !isBlankLine l) := by
  induction ls with
  | nil => rfl
  | cons line rest ih =>
    by_cases hb : isBlankLine line = true
    · simp only [renderBodyQuestions, hb, if_true, List.nil_append, List.filter_cons,
        Bool.not_true, Bool.false_eq_true, if_false]
      exact ih
    · by_cases hs : startsNumbered line = true
      · simp [renderBodyQuestions, hb, hs, List.filter_cons, emittedTexts, emittedText?]
        exact ih
      · simp [renderBodyQuestions, hb, hs, List.filter_cons, emittedTexts, emittedText?]
        exact ih

/-- C9: the exporter writes the single file `<subject>_study_notes.pdf`,
whose operations start with a centered bold title naming the subject, and
whose emitted text is, in order: the title, the "Detailed Notes" heading,
the notes body's kept lines, the "Placement Aptitude Questions" heading and
the questions body's kept lines. -/
theorem save_as_pdf_layout (notes questions subject : String) :
    (save_as_pdf notes questions subject).1 = subject ++ "_study_notes.pdf" ∧
    emittedTexts (save_as_pdf notes questions subject).2 =
      ("Study Notes on " ++ subject) :: "Detailed Notes" ::
        ((notes.splitOn "\n").filter (fun l => !isBlankLine l) ++
          "Placement Aptitude Questions" ::
            (questions.splitOn "\n").filter (fun l => !isBlankLine l)) ∧
    ∃ laterOps, (save_as_pdf notes questions subject).2 =
      PdfOp.setAutoPageBreak true 15 :: PdfOp.addPage ::
        PdfOp.setFont "Arial" "B" 16 ::
          PdfOp.cellText 200 10 ("Study Notes on " ++ subject) true "C" :: laterOps := by
  refine ⟨rfl, ?_, ?_⟩
  · have h2 : (save_as_pdf notes questions subject).2 =
        [PdfOp.setAutoPageBreak true 15, PdfOp.addPage,
         PdfOp.setFont "Arial" "B" 16,
         PdfOp.cellText 200 10 ("Study Notes on " ++ subject) true "C",
         PdfOp.lnBreak 10,
         PdfOp.setFont "Arial" "B" 14,
         PdfOp.cellText 200 10 "Detailed Notes" true "",
         PdfOp.lnBreak 5,
         PdfOp.setFont "Arial" "" 12]
        ++ renderBodyNotes (notes.splitOn "\n")
        ++ [PdfOp.lnBreak 10,
            PdfOp.setFont "Arial" "B" 14,
            PdfOp.cellText 200 10 "Placement Aptitude Questions" true "",
            PdfOp.lnBreak 5,
            PdfOp.setFont "Arial" "" 12]
        ++ renderBodyQuestions (questions.splitOn "\n") := rfl
    rw [h2, emittedTexts_append, emittedTexts_append, emittedTexts_append,
      emittedTexts_notes, emittedTexts_questions]
    simp [emittedTexts, emittedText?, List.filterMap_cons]
  · exact ⟨[PdfOp.lnBreak 10,
        PdfOp.setFont "Arial" "B" 14,
        PdfOp.cellText 200 10 "Detailed Notes" true "",
        PdfOp.lnBreak 5,
        PdfOp.setFont "Arial" "" 12]
      ++ renderBodyNotes (notes.splitOn "\n")
      ++ [PdfOp.lnBreak 10,
          PdfOp.setFont "Arial" "B" 14,
          PdfOp.cellText 200 10 "Placement Aptitude Questions" true "",
          PdfOp.lnBreak 5,
          PdfOp.setFont "Arial" "" 12]
      ++ renderBodyQuestions (questions.splitOn "\n"), rfl⟩

/-- C10: both body loops drop blank (empty or whitespace-only) lines
entirely — filtering them away changes nothing and a blank line contributes
no operation — and in the questions body the gap before a numbered question
is produced by a fixed `ln(3)` emitted before exactly the non-blank lines
that match a leading integer and a period. -/
theorem save_as_pdf_line_handling :
    (∀ ls : List String,
        renderBodyNotes (ls.filter (fun l => !isBlankLine l)) = renderBodyNotes ls) ∧
    (∀ ls : List String,
        renderBodyQuestions (ls.filter (fun l => !isBlankLine l)) =
          renderBodyQuestions ls) ∧
    (∀ (l : String) (rest : List String), isBlankLine l = true →
        renderBodyNotes (l :: rest) = renderBodyNotes rest ∧
        renderBodyQuestions (l :: rest) = renderBodyQuestions rest) ∧
    (∀ (l : String) (rest : List String), isBlankLine l = false →
        startsNumbered l = true →
          renderBodyQuestions (l :: rest) =
            PdfOp.lnBreak 3 :: PdfOp.multiCell 0 7 l :: renderBodyQuestions rest) ∧
    (∀ (l : String) (rest : List String), isBlankLine l = false →
        startsNumbered l = false →
          renderBodyQuestions (l :: rest) =
            PdfOp.multiCell 0 7 l :: renderBodyQuestions rest) := by
  refine ⟨?_, ?_, ?_, ?_, ?_⟩
  · intro ls
    induction ls with
    | nil => rfl
    | cons line rest ih =>
      by_cases hb : isBlankLine line = true
      · simp [renderBodyNotes, hb, ih, List.filter_cons]
      · simp [renderBodyNotes, hb, ih, List.filter_cons]
  · intro ls
    induction ls with
    | nil => rfl
    | cons line rest ih =>
      by_cases hb : isBlankLine line = true
      · simp [renderBodyQuestions, hb, ih, List.filter_cons]
      · simp [renderBodyQuestions, hb, ih, List.filter_cons]
  · intro l rest hb
    exact ⟨by simp [renderBodyNotes, hb], by simp [renderBodyQuestions, hb]⟩
  · intro l rest hb hn
    simp [renderBodyQuestions, hb, hn]
  · intro l rest hb hn
    simp [renderBodyQuestions, hb, hn]

/-- Witness for C10: the non-blank numbered line `"\u0663. Q"` — its
leading digit is the Arabic-Indic three, a non-ASCII decimal digit that
Python's `\d` matches — is rendered with the fixed 3-unit vertical break
before it. -/
theorem save_as_pdf_line_handling_witness :
    renderBodyQuestions ["\u0663. Q"] =
      [PdfOp.lnBreak 3, PdfOp.multiCell 0 7 "\u0663. Q"] := by
  rw [save_as_pdf_line_handling.2.2.2.1 "\u0663. Q" [] (by decide) (by decide)]
  rfl
